import Mathlib

/-!
Verification of the argument-marshaling layer (package abi, argument.go) of the
go-sero repository: Argument / Arguments, Pack, PackPrefix, UnpackValues, Unpack,
UnpackIntoMap, unpackTuple, unpackAtomic, unpackIntoMap, getArraySize, and the
string helpers capitalise / ToCamelCase.

The per-type codec (Type.pack, requiresLengthPrefix, toGoType, getAllAddress),
the coercion collaborator (set) and the field-resolution collaborator
(mapArgNamesToStructFields) live outside the provided sources; they are modelled
from the specification's description of their interfaces (each such definition
carries a doc comment saying so).  Go byte slices are Lists of Nat, Go maps are
association lists, reflection destinations are an explicit GoValue tree, and
mutation is explicit state passing (functions return the updated destination);
fallible Go functions return Option.
-/

/-- The kind tag of a Type (the Go field T); only the kinds that the argument
layer inspects are distinguished. -/
inductive TKind where
  | UintTy : TKind
  | BytesTy : TKind
  | AddressTy : TKind
  | ArrayTy : TKind
deriving DecidableEq

/-- Modelled from the spec: the external Type collaborator, restricted to the
shapes the argument layer distinguishes: a fixed-size scalar (uint256), a
dynamically sized byte string, a fixed-size address record type, and a
statically sized array with a declared dimension and an element Type. -/
inductive AbiType where
  | uint256 : AbiType
  | bytesTy : AbiType
  | addressTy : AbiType
  | array : Nat → AbiType → AbiType
deriving DecidableEq

/-- The Go field Type.T: the kind tag queried by the argument layer. -/
def AbiType.T : AbiType → TKind
  | AbiType.uint256 => TKind.UintTy
  | AbiType.bytesTy => TKind.BytesTy
  | AbiType.addressTy => TKind.AddressTy
  | AbiType.array _ _ => TKind.ArrayTy

/-- The Go field Type.Size: the declared dimension for an array (for the integer
kind it holds the bit width, as in the source's Type). -/
def AbiType.Size : AbiType → Nat
  | AbiType.uint256 => 256
  | AbiType.bytesTy => 0
  | AbiType.addressTy => 0
  | AbiType.array n _ => n

/-- Runtime values handled by the codec.  The tuple constructor stands for an
aggregate-kinded (struct) runtime value, which only the structural decoder's
kind tests ever inspect. -/
inductive Value where
  | uint : Nat → Value
  | bytesV : List Nat → Value
  | addr : List Nat → Value
  | arr : List Value → Value
  | tuple : List Value → Value

mutual
def Value.beq : Value → Value → Bool
  | Value.uint a, Value.uint b => a == b
  | Value.bytesV a, Value.bytesV b => a == b
  | Value.addr a, Value.addr b => a == b
  | Value.arr a, Value.arr b => Value.listBeq a b
  | Value.tuple a, Value.tuple b => Value.listBeq a b
  | _, _ => false
def Value.listBeq : List Value → List Value → Bool
  | [], [] => true
  | x :: xs, y :: ys => Value.beq x y && Value.listBeq xs ys
  | _, _ => false
end

mutual
theorem Value.beq_iff : ∀ a b : Value, Value.beq a b = true ↔ a = b
  | Value.uint _, b => by cases b <;> simp [Value.beq]
  | Value.bytesV _, b => by cases b <;> simp [Value.beq]
  | Value.addr _, b => by cases b <;> simp [Value.beq]
  | Value.arr a, b => by
      cases b <;> simp [Value.beq]
      exact Value.listBeq_iff a _
  | Value.tuple a, b => by
      cases b <;> simp [Value.beq]
      exact Value.listBeq_iff a _
theorem Value.listBeq_iff : ∀ a b : List Value, Value.listBeq a b = true ↔ a = b
  | [], [] => by simp [Value.listBeq]
  | [], _ :: _ => by simp [Value.listBeq]
  | _ :: _, [] => by simp [Value.listBeq]
  | x :: xs, y :: ys => by
      have h1 := Value.beq_iff x y
      have h2 := Value.listBeq_iff xs ys
      simp [Value.listBeq, h1, h2]
end

instance : DecidableEq Value := fun a b => decidable_of_iff _ (Value.beq_iff a b)

/-- A fixed-size address record (c_type.PKr), kept as its byte contents. -/
abbrev PKr := List Nat

/-- A reflection destination: a single writable cell, a named-field aggregate
(struct), or an ordered container (slice/array). -/
inductive GoValue where
  | prim : Value → GoValue
  | strct : List (String × GoValue) → GoValue
  | slice : List GoValue → GoValue

mutual
def GoValue.beq : GoValue → GoValue → Bool
  | GoValue.prim a, GoValue.prim b => a == b
  | GoValue.strct a, GoValue.strct b => GoValue.fieldsBeq a b
  | GoValue.slice a, GoValue.slice b => GoValue.listBeq a b
  | _, _ => false
def GoValue.fieldsBeq : List (String × GoValue) → List (String × GoValue) → Bool
  | [], [] => true
  | (k, v) :: xs, (k', v') :: ys => k == k' && GoValue.beq v v' && GoValue.fieldsBeq xs ys
  | _, _ => false
def GoValue.listBeq : List GoValue → List GoValue → Bool
  | [], [] => true
  | x :: xs, y :: ys => GoValue.beq x y && GoValue.listBeq xs ys
  | _, _ => false
end

mutual
theorem goValueBeq_iff : ∀ a b : GoValue, GoValue.beq a b = true ↔ a = b
  | GoValue.prim _, b => by cases b <;> simp [GoValue.beq]
  | GoValue.strct a, b => by
      cases b <;> simp [GoValue.beq]
      exact goValueFieldsBeq_iff a _
  | GoValue.slice a, b => by
      cases b <;> simp [GoValue.beq]
      exact goValueListBeq_iff a _
theorem goValueFieldsBeq_iff :
    ∀ a b : List (String × GoValue), GoValue.fieldsBeq a b = true ↔ a = b
  | [], [] => by simp [GoValue.fieldsBeq]
  | [], _ :: _ => by simp [GoValue.fieldsBeq]
  | _ :: _, [] => by simp [GoValue.fieldsBeq]
  | (k, v) :: xs, (k', v') :: ys => by
      have h1 := goValueBeq_iff v v'
      have h2 := goValueFieldsBeq_iff xs ys
      simp [GoValue.fieldsBeq, h1, h2, and_assoc]
theorem goValueListBeq_iff : ∀ a b : List GoValue, GoValue.listBeq a b = true ↔ a = b
  | [], [] => by simp [GoValue.listBeq]
  | [], _ :: _ => by simp [GoValue.listBeq]
  | _ :: _, [] => by simp [GoValue.listBeq]
  | x :: xs, y :: ys => by
      have h1 := goValueBeq_iff x y
      have h2 := goValueListBeq_iff xs ys
      simp [GoValue.listBeq, h1, h2]
end

instance : DecidableEq GoValue := fun a b => decidable_of_iff _ (goValueBeq_iff a b)

/-- The destination handed to Unpack: either a pointer to a mutable value or a
non-pointer (which Unpack must reject). -/
inductive GoDest where
  | ptr : GoValue → GoDest
  | nonPtr : GoValue → GoDest

/-- Argument holds the name of the argument and the corresponding type
(source field Type is spelled Ty here because Type is reserved in Lean). -/
structure Argument where
  Name : String
  Ty : AbiType
  Indexed : Bool
deriving DecidableEq

abbrev Arguments := List Argument

/-- Big-endian bytes of n in a fixed width w (most significant first). -/
def beBytes : Nat → Nat → List Nat
  | 0, _ => []
  | w + 1, n => beBytes w (n / 256) ++ [n % 256]

/-- The numeric value of a big-endian byte string. -/
def beVal (bs : List Nat) : Nat := bs.foldl (fun a b => a * 256 + b) 0

/-- Right-pad a byte string with zeros to a multiple of 32 bytes. -/
def padRight32 (bs : List Nat) : List Nat :=
  bs ++ List.replicate ((32 - bs.length % 32) % 32) 0

/-- Read len bytes of data starting at off; none when out of bounds (a Go slice
bounds panic or codec bounds error). -/
def readBytes (data : List Nat) (off len : Nat) : Option (List Nat) :=
  if off + len ≤ data.length then some ((data.drop off).take len) else none

/-- Modelled from the spec: packNum, the 32-byte encoding of an offset written
into the head region. -/
def packNum (n : Nat) : List Nat := beBytes 32 n

/-- The full flattened slot count of a type: the product of the declared
dimension sizes of every nested array level, stopping at the first non-array
element type (1 for non-arrays). -/
def fullSize : AbiType → Nat
  | AbiType.array n e => n * fullSize e
  | _ => 1

/-- Modelled from the spec: requiresLengthPrefix of the Type collaborator; true
exactly for the dynamically sized kinds (here the byte-string kind). -/
def requiresLengthPrefix (t : AbiType) : Bool :=
  match t with
  | AbiType.bytesTy => true
  | _ => false

mutual
/-- Modelled from the spec: Type.pack of the Type collaborator.  A uint256
packs to its 32-byte big-endian form, a byte string to a 32-byte length
followed by the right-padded payload, an address record to its padded bytes,
and a statically sized array to the concatenation of its packed elements. -/
def AbiType.pack : AbiType → Value → Option (List Nat)
  | AbiType.uint256, Value.uint n => some (beBytes 32 n)
  | AbiType.bytesTy, Value.bytesV bs => some (beBytes 32 bs.length ++ padRight32 bs)
  | AbiType.addressTy, Value.addr p => some (padRight32 p)
  | AbiType.array n e, Value.arr vs =>
      if vs.length = n then AbiType.packList e vs else none
  | _, _ => none
/-- Packs each element of a static array in order and concatenates. -/
def AbiType.packList : AbiType → List Value → Option (List Nat)
  | _, [] => some []
  | e, v :: vs =>
      match AbiType.pack e v, AbiType.packList e vs with
      | some a, some b => some (a ++ b)
      | _, _ => none
end

/-- Decodes count inline elements with a given element decoder, advancing the
offset by the element stride each step. -/
def decodeCount (dec : Nat → Option Value) : Nat → Nat → Nat → Option (List Value)
  | 0, _, _ => some []
  | k + 1, off, stride =>
      match dec off, decodeCount dec k (off + stride) stride with
      | some v, some vs => some (v :: vs)
      | _, _ => none

/-- Modelled from the spec: toGoType, the decode-at-offset primitive of the
Type collaborator.  A uint256 reads 32 bytes at the offset; a byte string reads
a 32-byte absolute offset at the slot, then a 32-byte length and the payload at
that absolute position; an address reads its slot; a static array reads its
elements inline, each element spaced by its own full flattened byte size. -/
def toGoType : AbiType → Nat → List Nat → Option Value
  | AbiType.uint256, off, data =>
      (readBytes data off 32).map (fun bs => Value.uint (beVal bs))
  | AbiType.addressTy, off, data =>
      (readBytes data off 32).map (fun bs => Value.addr bs)
  | AbiType.bytesTy, off, data =>
      match readBytes data off 32 with
      | none => none
      | some offsetWord =>
          match readBytes data (beVal offsetWord) 32 with
          | none => none
          | some lenWord =>
              (readBytes data (beVal offsetWord + 32) (beVal lenWord)).map
                (fun payload => Value.bytesV payload)
  | AbiType.array n e, off, data =>
      (decodeCount (fun o => toGoType e o data) n off (fullSize e * 32)).map Value.arr

mutual
/-- Modelled from the spec: getAllAddress of the Type collaborator; extracts
the embedded fixed-size address records of a value in order (an argument may
contribute zero or many), failing when the value does not fit the type. -/
def AbiType.getAllAddress : AbiType → Value → Option (List PKr)
  | AbiType.addressTy, Value.addr p => some [p]
  | AbiType.uint256, Value.uint _ => some []
  | AbiType.bytesTy, Value.bytesV _ => some []
  | AbiType.array n e, Value.arr vs =>
      if vs.length = n then AbiType.getAllAddressList e vs else none
  | _, _ => none
/-- Extracts and concatenates the address records of the elements in order. -/
def AbiType.getAllAddressList : AbiType → List Value → Option (List PKr)
  | _, [] => some []
  | e, v :: vs =>
      match AbiType.getAllAddress e v, AbiType.getAllAddressList e vs with
      | some a, some b => some (a ++ b)
      | _, _ => none
end

/-- Modelled from the spec: the coercion collaborator set, which assigns a
value into a destination location (the updated location is returned). -/
def set (_dst src : GoValue) : Option GoValue := some src

/-- True when a runtime value is aggregate-kinded (reflect.Struct). -/
def valueIsStructKind : Value → Bool
  | Value.tuple _ => true
  | _ => false

/-- Lookup in an association list (Go map read; none when the key is absent,
which for a struct field lookup is an invalid reflect field). -/
def assocLookup {α : Type} : List (String × α) → String → Option α
  | [], _ => none
  | (k, v) :: rest, key => if k = key then some v else assocLookup rest key

/-- Replace the value stored under a field name (struct field write). -/
def updateField : List (String × GoValue) → String → GoValue → List (String × GoValue)
  | [], _, _ => []
  | (k, v) :: rest, name, nv =>
      if k = name then (k, nv) :: rest else (k, v) :: updateField rest name nv

/-- Go map assignment: overwrite the binding of the key, or append it. -/
def mapInsert : List (String × Value) → String → Value → List (String × Value)
  | [], k, val => [(k, val)]
  | (k', v') :: rest, k, val =>
      if k' = k then (k', val) :: rest else (k', v') :: mapInsert rest k val

/-- capitalise makes the first character of a string upper case, also removing
any prefixing underscores from the variable names. -/
def capitalise (input : String) : String :=
  match input.toList.dropWhile (fun c => c = '_') with
  | [] => ""
  | c :: rest => String.mk (c.toUpper :: rest)

/-- strings.Split on the underscore separator, over character lists. -/
def splitOnUnderscore : List Char → List (List Char)
  | [] => [[]]
  | c :: rest =>
      let r := splitOnUnderscore rest
      if c = '_' then [] :: r
      else
        match r with
        | [] => [[c]]
        | s :: ss => (c :: s) :: ss

/-- ToCamelCase converts an under-score string to a camel-case string. -/
def ToCamelCase (input : String) : String :=
  let parts := splitOnUnderscore input.toList
  let parts := parts.map (fun s =>
    match s with
    | [] => []
    | c :: rest => c.toUpper :: rest)
  String.mk parts.flatten

/-- Modelled from the spec: the field name the field-resolution collaborator
associates to an argument name (case/format-normalized via the source's own
string helpers). -/
def resolvedField (n : String) : String := capitalise (ToCamelCase n)

/-- Modelled from the spec: mapArgNamesToStructFields, the field-resolution
collaborator; maps every argument name to its resolved destination field
name. -/
def mapArgNamesToStructFields (argNames : List String) : List (String × String) :=
  argNames.map (fun n => (n, resolvedField n))

/-- LengthNonIndexed returns the number of arguments when not counting
'indexed' ones. -/
def Arguments.LengthNonIndexed (arguments : Arguments) : Nat :=
  arguments.foldl (fun out arg => if !arg.Indexed then out + 1 else out) 0

/-- NonIndexed returns the arguments with indexed arguments filtered out. -/
def Arguments.NonIndexed (arguments : Arguments) : Arguments :=
  arguments.filter (fun arg => !arg.Indexed)

/-- isTuple returns true for non-atomic constructs, like (uint,uint) or
uint[]. -/
def Arguments.isTuple (arguments : Arguments) : Bool :=
  arguments.length > 1

/-- Computes the full size of an array, counting nested arrays (the loop body
of getArraySize: multiply by each nested array dimension). -/
def getArraySizeGo (size : Nat) : AbiType → Nat
  | AbiType.array m e => getArraySizeGo (size * m) e
  | _ => size

/-- Computes the full size of an array, i.e. counting nested arrays, which
count towards size for unpacking (source is only called on array types). -/
def getArraySize : AbiType → Nat
  | AbiType.array n e => getArraySizeGo n e
  | t => AbiType.Size t

/-- Decode at a byte offset that the decoder computed as an Int (a negative
offset is a Go slice bounds panic inside the codec). -/
def goDecodeAt (t : AbiType) (off : Int) (data : List Nat) : Option Value :=
  if off < 0 then none else toGoType t off.toNat data

/-- The per-argument loop of UnpackValues: decode the argument at slot
(index + virtualArgs), then bump virtualArgs past a static array's extra
inline slots. -/
def unpackLoop (data : List Nat) : List Argument → Nat → Int → Option (List Value)
  | [], _, _ => some []
  | arg :: rest, index, virtualArgs =>
      let marshalledValue := goDecodeAt arg.Ty (((index : Int) + virtualArgs) * 32) data
      let virtualArgs' :=
        if AbiType.T arg.Ty = TKind.ArrayTy then
          virtualArgs + ((getArraySize arg.Ty : Int) - 1)
        else virtualArgs
      match marshalledValue with
      | none => none
      | some v => (unpackLoop data rest (index + 1) virtualArgs').map (fun vs => v :: vs)

/-- UnpackValues unpacks ABI-encoded hexdata according to the ABI
specification, returning the list of decoded values, one per non-indexed
argument. -/
def Arguments.UnpackValues (arguments : Arguments) (data : List Nat) : Option (List Value) :=
  unpackLoop data ( Arguments.NonIndexed arguments) 0 0

/-- The struct branch of unpackTuple: for each non-indexed argument resolve its
field, fail when the field is invalid, and assign the decoded value. -/
def structSetLoop (abi2struct : List (String × String)) :
    List Argument → List Value → List (String × GoValue) → Option (List (String × GoValue))
  | [], _, fields => some fields
  | _ :: _, [], _ => none
  | arg :: args, mv :: mvs, fields =>
      let fname := (assocLookup abi2struct arg.Name).getD ""
      match assocLookup fields fname with
      | none => none
      | some fv =>
          match set fv (GoValue.prim mv) with
          | none => none
          | some nv => structSetLoop abi2struct args mvs (updateField fields fname nv)

/-- The slice branch of unpackTuple: assign the first count positions in
order (an out-of-range read of the decoded values is a Go panic). -/
def sliceSetLoop : Nat → List GoValue → List Value → Option (List GoValue)
  | 0, elems, _ => some elems
  | _ + 1, [], _ => none
  | _ + 1, _ :: _, [] => none
  | n + 1, e :: elems, mv :: mvs =>
      match set e (GoValue.prim mv) with
      | none => none
      | some e2 => (sliceSetLoop n elems mvs).map (fun es => e2 :: es)

/-- unpackTuple unpacks (hexdata -> go) a batch of values into the pointee of
the destination (the source dereferences the pointer itself; the pointee is
passed here). -/
def Arguments.unpackTuple (arguments : Arguments) (value : GoValue)
    (marshalledValues : List Value) : Option GoValue :=
  let nonIndexedArgs := Arguments.NonIndexed arguments
  match value with
  | GoValue.strct fields =>
      let argNames := nonIndexedArgs.map (fun arg => arg.Name)
      let abi2struct := mapArgNamesToStructFields argNames
      (structSetLoop abi2struct nonIndexedArgs marshalledValues fields).map GoValue.strct
  | GoValue.slice elems =>
      if elems.length < marshalledValues.length then none
      else (sliceSetLoop nonIndexedArgs.length elems marshalledValues).map GoValue.slice
  | _ => none

/-- unpackAtomic unpacks (hexdata -> go) a single value into the pointee of the
destination: when the destination is struct-kinded and the decoded value is
not, the value is routed into the destination's first field (a Go panic on a
field-less struct), otherwise it is assigned directly. -/
def Arguments.unpackAtomic (arguments : Arguments) (dst : GoValue)
    (marshalledValues : Value) : Option GoValue :=
  let _ := arguments
  match dst, valueIsStructKind marshalledValues with
  | GoValue.strct fields, false =>
      match fields with
      | [] => none
      | (fn, fv) :: rest =>
          (set fv (GoValue.prim marshalledValues)).map
            (fun nv => GoValue.strct ((fn, nv) :: rest))
  | _, _ => set dst (GoValue.prim marshalledValues)

/-- Unpack performs the operation hexdata -> Go format. -/
def Arguments.Unpack (arguments : Arguments) (v : GoDest) (data : List Nat) : Option GoValue :=
  match v with
  | GoDest.nonPtr _ => none
  | GoDest.ptr inner =>
      match Arguments.UnpackValues arguments data with
      | none => none
      | some marshalledValues =>
          if marshalledValues.length = 0 then none
          else if Arguments.isTuple arguments then
            Arguments.unpackTuple arguments inner marshalledValues
          else
            Arguments.unpackAtomic arguments inner (marshalledValues.headD (Value.uint 0))

/-- unpackIntoMap's assignment loop: store each non-indexed argument's decoded
value under the argument's name. -/
def mapAssignLoop : List Argument → List Value → List (String × Value) → Option (List (String × Value))
  | [], _, m => some m
  | _ :: _, [], _ => none
  | arg :: args, mv :: mvs, m => mapAssignLoop args mvs (mapInsert m arg.Name mv)

/-- unpackIntoMap unpacks marshalledValues into the provided map (failing on a
nil map). -/
def Arguments.unpackIntoMap (arguments : Arguments) (v : Option (List (String × Value)))
    (marshalledValues : List Value) : Option (List (String × Value)) :=
  match v with
  | none => none
  | some m => mapAssignLoop ( Arguments.NonIndexed arguments) marshalledValues m

/-- UnpackIntoMap performs the operation hexdata -> mapping of argument name to
argument value. -/
def Arguments.UnpackIntoMap (arguments : Arguments) (v : Option (List (String × Value)))
    (data : List Nat) : Option (List (String × Value)) :=
  match Arguments.UnpackValues arguments data with
  | none => none
  | some marshalledValues => Arguments.unpackIntoMap arguments v marshalledValues

/-- The per-argument collection loop of PackPrefix: extract each argument's
address records and append them in order. -/
def collectAddrs : List (Argument × Value) → Option (List PKr)
  | [] => some []
  | (input, a) :: rest =>
      match AbiType.getAllAddress input.Ty a with
      | none => none
      | some pkrs => (collectAddrs rest).map (fun res => pkrs ++ res)

/-- PackPrefix serializes the address records embedded in the values as a
count-prefixed flat byte array (the count is PaddedBigBytes(len, 2), modelled
from the spec as a fixed 2-byte big-endian value). -/
def Arguments.PackPrefix (arguments : Arguments) (args : List Value) : Option (List Nat) :=
  if args.length ≠ arguments.length then none
  else
    match collectAddrs (arguments.zip args) with
    | none => none
    | some result => some (beBytes 2 result.length ++ result.flatten)

/-- The per-argument loop of Pack: pack each value; a length-prefixed type
contributes a 32-byte offset to the head and its payload to the tail, any
other type contributes its packed bytes inline; finally head ++ tail. -/
def packLoop (inputOffset : Nat) :
    List (Argument × Value) → List Nat → List Nat → Option (List Nat)
  | [], ret, variableInput => some (ret ++ variableInput)
  | (input, a) :: rest, ret, variableInput =>
      match AbiType.pack input.Ty a with
      | none => none
      | some packed =>
          if requiresLengthPrefix input.Ty then
            packLoop inputOffset rest (ret ++ packNum (inputOffset + variableInput.length))
              (variableInput ++ packed)
          else
            packLoop inputOffset rest (ret ++ packed) variableInput

/-- Pack performs the operation Go format -> Hexdata. -/
def Arguments.Pack (arguments : Arguments) (args : List Value) : Option (List Nat) :=
  if args.length ≠ arguments.length then none
  else
    let inputOffset := arguments.foldl
      (fun acc abiArg =>
        if AbiType.T abiArg.Ty = TKind.ArrayTy then acc + 32 * AbiType.Size abiArg.Ty
        else acc + 32) 0
    packLoop inputOffset (arguments.zip args) [] []

/-- PackValues performs the operation Go format -> Hexdata.  It is the
semantic opposite of UnpackValues. -/
def Arguments.PackValues (arguments : Arguments) (args : List Value) : Option (List Nat) :=
  Arguments.Pack arguments args

/-- The head region described by the spec: one inline packed value per
argument, except that a length-prefixed argument contributes a 32-byte offset
headSize + tailLengthSoFar. -/
def specHead (hs tailLen : Nat) : List (Argument × Value) → Option (List Nat)
  | [] => some []
  | (arg, v) :: rest =>
      match AbiType.pack arg.Ty v with
      | none => none
      | some packed =>
          if requiresLengthPrefix arg.Ty then
            (specHead hs (tailLen + packed.length) rest).map
              (fun h => packNum (hs + tailLen) ++ h)
          else (specHead hs tailLen rest).map (fun h => packed ++ h)

/-- The tail region described by the spec: the packed payloads of the
length-prefixed arguments, in argument order. -/
def specTail : List (Argument × Value) → Option (List Nat)
  | [] => some []
  | (arg, v) :: rest =>
      match AbiType.pack arg.Ty v with
      | none => none
      | some packed =>
          if requiresLengthPrefix arg.Ty then
            (specTail rest).map (fun t => packed ++ t)
          else specTail rest

/-- The head size described by the spec: 32 bytes per argument, except that an
array-typed argument contributes 32 times its own declared dimension size. -/
def headSize (arguments : Arguments) : Nat :=
  (arguments.map (fun abiArg =>
    if AbiType.T abiArg.Ty = TKind.ArrayTy then 32 * AbiType.Size abiArg.Ty else 32)).sum

/-- The virtual-argument count accumulated over a list of already-decoded
arguments, as described by the spec: each array-typed argument adds its full
flattened size minus one. -/
def virtualArgsBefore (argsL : List Argument) : Int :=
  (argsL.map (fun arg =>
    if AbiType.T arg.Ty = TKind.ArrayTy then (fullSize arg.Ty : Int) - 1 else 0)).sum

/-- The per-argument address extraction described by the spec: the list of
per-argument address record lists (order preserved), failing when any
per-argument extraction fails. -/
def extractAll : List (Argument × Value) → Option (List (List PKr))
  | [] => some []
  | (input, a) :: rest =>
      match AbiType.getAllAddress input.Ty a, extractAll rest with
      | some pkrs, some ls => some (pkrs :: ls)
      | _, _ => none

theorem beBytes_length : ∀ w n, (beBytes w n).length = w := by
  intro w
  induction w with
  | zero => intro n; rfl
  | succ k ih => intro n; simp [beBytes, ih]

theorem getArraySizeGo_eq (e : AbiType) : ∀ acc, getArraySizeGo acc e = acc * fullSize e := by
  induction e with
  | uint256 => intro acc; simp [getArraySizeGo, fullSize]
  | bytesTy => intro acc; simp [getArraySizeGo, fullSize]
  | addressTy => intro acc; simp [getArraySizeGo, fullSize]
  | array m e ih =>
      intro acc
      simp [getArraySizeGo, fullSize, ih, Nat.mul_assoc]

theorem getArraySize_eq_fullSize (t : AbiType) (h : AbiType.T t = TKind.ArrayTy) :
    getArraySize t = fullSize t := by
  cases t with
  | array n e => simp [getArraySize, getArraySizeGo_eq, fullSize]
  | uint256 => simp [AbiType.T] at h
  | bytesTy => simp [AbiType.T] at h
  | addressTy => simp [AbiType.T] at h

/-- Claim C6: Pack with a value count different from the argument count fails
with an arity error before any per-value packing is attempted and produces no
output bytes. -/
theorem C6_pack_arity (arguments : Arguments) (args : List Value)
    (h : args.length ≠ arguments.length) : Arguments.Pack arguments args = none := by
  simp [Arguments.Pack, h]

theorem C6_pack_arity_witness :
    ([Value.uint 1, Value.uint 2] : List Value).length ≠
        ([⟨"a", AbiType.uint256, false⟩] : Arguments).length ∧
      Arguments.Pack [⟨"a", AbiType.uint256, false⟩] [Value.uint 1, Value.uint 2] = none :=
  ⟨by decide, C6_pack_arity [⟨"a", AbiType.uint256, false⟩] [Value.uint 1, Value.uint 2] (by decide)⟩

/-- Claim C7: Unpack fails when the destination is not a pointer target, and
fails when the decoded value count is zero; in both cases no value is assigned
into the destination (no updated destination is produced). -/
theorem C7_unpack_failures (arguments : Arguments) (x inner : GoValue) (data : List Nat) :
    Arguments.Unpack arguments (GoDest.nonPtr x) data = none ∧
      ( Arguments.UnpackValues arguments data = some [] →
        Arguments.Unpack arguments (GoDest.ptr inner) data = none) := by
  constructor
  · rfl
  · intro h
    simp [Arguments.Unpack, h]

theorem C7_unpack_failures_witness :
    Arguments.UnpackValues [] [] = some [] ∧
      Arguments.Unpack [] (GoDest.ptr (GoValue.prim (Value.uint 0))) [] = none :=
  ⟨rfl, (C7_unpack_failures [] (GoValue.prim (Value.uint 0)) (GoValue.prim (Value.uint 0)) []).2 rfl⟩

/-- Claim C4: Unpack dispatches to unpackTuple exactly when the full Argument
List (indexed arguments included) has more than one element, and to
unpackAtomic otherwise; the witness instantiates a list with one indexed and
one non-indexed argument, which is tuple-dispatched though a single value is
decoded. -/
theorem C4_dispatch_full_length (arguments : Arguments) (inner : GoValue) (data : List Nat)
    (m0 : Value) (rest : List Value)
    (hmv : Arguments.UnpackValues arguments data = some (m0 :: rest)) :
    (1 < arguments.length →
      Arguments.Unpack arguments (GoDest.ptr inner) data =
        Arguments.unpackTuple arguments inner (m0 :: rest)) ∧
    (arguments.length ≤ 1 →
      Arguments.Unpack arguments (GoDest.ptr inner) data =
        Arguments.unpackAtomic arguments inner m0) := by
  constructor <;> intro h
  · have ht : Arguments.isTuple arguments = true := by
      simp [Arguments.isTuple]
      omega
    simp [Arguments.Unpack, hmv, ht]
  · have ht : Arguments.isTuple arguments = false := by
      simp [Arguments.isTuple]
      omega
    simp [Arguments.Unpack, hmv, ht]

theorem C4_dispatch_full_length_witness :
    Arguments.UnpackValues [⟨"x", AbiType.uint256, true⟩, ⟨"y", AbiType.uint256, false⟩]
        (List.replicate 32 0) = some [Value.uint 0] ∧
      Arguments.Unpack [⟨"x", AbiType.uint256, true⟩, ⟨"y", AbiType.uint256, false⟩]
          (GoDest.ptr (GoValue.slice [GoValue.prim (Value.uint 7)])) (List.replicate 32 0) =
        Arguments.unpackTuple [⟨"x", AbiType.uint256, true⟩, ⟨"y", AbiType.uint256, false⟩]
          (GoValue.slice [GoValue.prim (Value.uint 7)]) [Value.uint 0] :=
  ⟨by decide,
    (C4_dispatch_full_length [⟨"x", AbiType.uint256, true⟩, ⟨"y", AbiType.uint256, false⟩]
      (GoValue.slice [GoValue.prim (Value.uint 7)]) (List.replicate 32 0)
      (Value.uint 0) [] (by decide)).1 (by decide)⟩

/-- Claim C8 as stated is false: unpackAtomic routes into the first field for
EVERY struct-kinded destination (any field count), not only for single-field
aggregates; at a two-field struct destination with a non-aggregate decoded
value the code does not assign directly. -/
theorem C8_atomic_counterexample :
    Arguments.unpackAtomic [⟨"a", AbiType.uint256, false⟩]
        (GoValue.strct [("A", GoValue.prim (Value.uint 1)), ("B", GoValue.prim (Value.uint 2))])
        (Value.uint 7) ≠
      set (GoValue.strct [("A", GoValue.prim (Value.uint 1)), ("B", GoValue.prim (Value.uint 2))])
        (GoValue.prim (Value.uint 7)) := by decide

/-- Claim C8 (amended): given a destination that is a named-field aggregate
with at least one field (regardless of field count) and a decoded value that
is not an aggregate, unpackAtomic assigns the value into the destination's
first field; given a destination that is not an aggregate, or a decoded value
that is an aggregate, it assigns the decoded value directly into the
destination. -/
theorem C8_atomic_amended (arguments : Arguments) (_h1 : arguments.length = 1)
    (dst : GoValue) (mv : Value) :
    (∀ fn fv rest, dst = GoValue.strct ((fn, fv) :: rest) → valueIsStructKind mv = false →
        Arguments.unpackAtomic arguments dst mv =
          (set fv (GoValue.prim mv)).map (fun nv => GoValue.strct ((fn, nv) :: rest))) ∧
    ((∀ fields, dst ≠ GoValue.strct fields) ∨ valueIsStructKind mv = true →
        Arguments.unpackAtomic arguments dst mv = set dst (GoValue.prim mv)) := by
  constructor
  · rintro fn fv rest rfl hmv
    simp [Arguments.unpackAtomic, hmv]
  · rintro (hne | hmv)
    · cases dst with
      | prim v => simp [Arguments.unpackAtomic]
      | strct fields => exact absurd rfl (hne fields)
      | slice elems => simp [Arguments.unpackAtomic]
    · cases dst <;> simp [Arguments.unpackAtomic, hmv]

theorem C8_atomic_amended_witness :
    (([⟨"a", AbiType.uint256, false⟩] : Arguments).length = 1) ∧
      Arguments.unpackAtomic [⟨"a", AbiType.uint256, false⟩]
          (GoValue.strct [("A", GoValue.prim (Value.uint 1))]) (Value.uint 7) =
        (set (GoValue.prim (Value.uint 1)) (GoValue.prim (Value.uint 7))).map
          (fun nv => GoValue.strct [("A", nv)]) :=
  ⟨rfl,
    (C8_atomic_amended [⟨"a", AbiType.uint256, false⟩] rfl
      (GoValue.strct [("A", GoValue.prim (Value.uint 1))]) (Value.uint 7)).1
      "A" (GoValue.prim (Value.uint 1)) [] rfl rfl⟩

theorem unpackLoop_spec (data : List Nat) :
    ∀ (argsL : List Argument) (index0 : Nat) (va0 : Int) (vs : List Value),
      unpackLoop data argsL index0 va0 = some vs →
      vs.length = argsL.length ∧
      ∀ i, i < argsL.length → ∀ arg, argsL[i]? = some arg →
        vs[i]? = goDecodeAt arg.Ty
          (((index0 : Int) + i + va0 + virtualArgsBefore (argsL.take i)) * 32) data := by
  intro argsL
  induction argsL with
  | nil =>
      intro index0 va0 vs h
      simp [unpackLoop] at h
      subst h
      simp
  | cons arg rest ih =>
      intro index0 va0 vs h
      simp only [unpackLoop] at h
      cases hd : goDecodeAt arg.Ty (((index0 : Int) + va0) * 32) data with
      | none => rw [hd] at h; simp at h
      | some v =>
          rw [hd] at h
          simp only [Option.map_eq_some'] at h
          obtain ⟨vs', hrec, hv⟩ := h
          subst hv
          obtain ⟨hlen, hpos⟩ := ih (index0 + 1) _ vs' hrec
          refine ⟨by simp [hlen], ?_⟩
          intro i hi arg' harg
          cases i with
          | zero =>
              simp only [List.getElem?_cons_zero, Option.some.injEq] at harg
              subst harg
              simp only [List.getElem?_cons_zero, List.take_zero, virtualArgsBefore,
                List.map_nil, List.sum_nil]
              rw [← hd]
              congr 1
              push_cast
              ring
          | succ j =>
              have hj : j < rest.length := by
                simpa using hi
              have harg' : rest[j]? = some arg' := by
                simpa using harg
              have hthis := hpos j hj arg' harg'
              simp only [List.getElem?_cons_succ]
              rw [hthis]
              congr 1
              have htake : virtualArgsBefore ((arg :: rest).take (j + 1)) =
                  (if AbiType.T arg.Ty = TKind.ArrayTy then (fullSize arg.Ty : Int) - 1 else 0) +
                    virtualArgsBefore (rest.take j) := by
                simp [virtualArgsBefore, List.take_succ_cons]
              rw [htake]
              by_cases hT : AbiType.T arg.Ty = TKind.ArrayTy
              · rw [if_pos hT] at *
                rw [if_pos hT, getArraySize_eq_fullSize arg.Ty hT]
                push_cast
                ring
              · rw [if_neg hT] at *
                rw [if_neg hT]
                push_cast
                ring

/-- Claim C3: UnpackValues decodes the non-indexed argument at filtered
position i at byte offset (i + virtualArgs) * 32, where virtualArgs
accumulates, over the preceding array-typed arguments, the full flattened
array size minus one; and getArraySize of an array type is the product of the
declared dimension sizes of every nested array level. -/
theorem C3_unpack_positions (arguments : Arguments) (data : List Nat) (vs : List Value)
    (h : Arguments.UnpackValues arguments data = some vs) :
    vs.length = ( Arguments.NonIndexed arguments).length ∧
    (∀ i, i < ( Arguments.NonIndexed arguments).length →
      ∀ arg, ( Arguments.NonIndexed arguments)[i]? = some arg →
        vs[i]? = goDecodeAt arg.Ty
          (((i : Int) + virtualArgsBefore (( Arguments.NonIndexed arguments).take i)) * 32)
          data) ∧
    (∀ t, AbiType.T t = TKind.ArrayTy → getArraySize t = fullSize t) := by
  obtain ⟨h1, h2⟩ := unpackLoop_spec data ( Arguments.NonIndexed arguments) 0 0 vs h
  refine ⟨h1, ?_, fun t ht => getArraySize_eq_fullSize t ht⟩
  intro i hi arg harg
  have hthis := h2 i hi arg harg
  rw [hthis]
  congr 1
  push_cast
  ring

theorem C3_unpack_positions_witness :
    Arguments.UnpackValues [⟨"b", AbiType.uint256, false⟩] (List.replicate 32 0) =
        some [Value.uint 0] ∧
      getArraySize (AbiType.array 2 (AbiType.array 3 AbiType.uint256)) =
        fullSize (AbiType.array 2 (AbiType.array 3 AbiType.uint256)) :=
  ⟨by decide,
    (C3_unpack_positions [⟨"b", AbiType.uint256, false⟩] (List.replicate 32 0)
      [Value.uint 0] (by decide)).2.2
      (AbiType.array 2 (AbiType.array 3 AbiType.uint256)) (by decide)⟩

theorem mapAssignLoop_foldl :
    ∀ (argsL : List Argument) (mvs : List Value) (m : List (String × Value)),
      argsL.length = mvs.length →
      mapAssignLoop argsL mvs m =
        some ((argsL.zip mvs).foldl (fun acc p => mapInsert acc p.1.Name p.2) m) := by
  intro argsL
  induction argsL with
  | nil => intro mvs m _; simp [mapAssignLoop]
  | cons a args ih =>
      intro mvs m h
      cases mvs with
      | nil => simp at h
      | cons mv mvs' =>
          simp only [List.length_cons, Nat.add_right_cancel_iff] at h
          simp only [mapAssignLoop, List.zip_cons_cons, List.foldl_cons]
          exact ih mvs' (mapInsert m a.Name mv) h

theorem mapInsert_overwrite :
    ∀ (m : List (String × Value)) (k : String) (a b : Value),
      mapInsert (mapInsert m k a) k b = mapInsert m k b := by
  intro m k a b
  induction m with
  | nil => simp [mapInsert]
  | cons p rest ih =>
      obtain ⟨k', v'⟩ := p
      by_cases hk : k' = k
      · simp [mapInsert, hk]
      · simp [mapInsert, hk, ih]

/-- Claim C9: UnpackIntoMap with an absent (nil) destination map fails and
produces no updated map; with a usable map it assigns each non-indexed
argument's decoded value under that argument's name as key, in list order
(a left fold of map insertion), and map insertion overwrites an earlier
binding of the same name. -/
theorem C9_map_unpack (arguments : Arguments) (data : List Nat)
    (m : List (String × Value)) (mvs : List Value) :
    Arguments.UnpackIntoMap arguments none data = none ∧
    ( Arguments.UnpackValues arguments data = some mvs →
      Arguments.UnpackIntoMap arguments (some m) data =
        some ((( Arguments.NonIndexed arguments).zip mvs).foldl
          (fun acc p => mapInsert acc p.1.Name p.2) m)) ∧
    (∀ k a b, mapInsert (mapInsert m k a) k b = mapInsert m k b) := by
  refine ⟨?_, ?_, fun k a b => mapInsert_overwrite m k a b⟩
  · unfold Arguments.UnpackIntoMap
    cases Arguments.UnpackValues arguments data <;> simp [Arguments.unpackIntoMap]
  · intro h
    have hlen := (unpackLoop_spec data ( Arguments.NonIndexed arguments) 0 0 mvs h).1
    simp only [Arguments.UnpackIntoMap, h, Arguments.unpackIntoMap]
    exact mapAssignLoop_foldl _ _ _ hlen.symm

theorem C9_map_unpack_witness :
    Arguments.UnpackValues [⟨"a", AbiType.uint256, false⟩] (List.replicate 32 0) =
        some [Value.uint 0] ∧
      Arguments.UnpackIntoMap [⟨"a", AbiType.uint256, false⟩] (some []) (List.replicate 32 0) =
        some ((( Arguments.NonIndexed [⟨"a", AbiType.uint256, false⟩]).zip [Value.uint 0]).foldl
          (fun acc p => mapInsert acc p.1.Name p.2) []) :=
  ⟨by decide,
    (C9_map_unpack [⟨"a", AbiType.uint256, false⟩] (List.replicate 32 0) [] [Value.uint 0]).2.1
      (by decide)⟩

theorem assocLookup_updateField (fields : List (String × GoValue)) (name fn : String)
    (nv : GoValue) (h : name ≠ fn) :
    assocLookup (updateField fields name nv) fn = assocLookup fields fn := by
  induction fields with
  | nil => simp [updateField]
  | cons p rest ih =>
      obtain ⟨k, v⟩ := p
      by_cases hk : k = name
      · subst hk
        simp [updateField, assocLookup, h]
      · by_cases hkf : k = fn
        · subst hkf
          simp [updateField, hk, assocLookup]
        · simp [updateField, hk, assocLookup, hkf, ih]

theorem assocLookup_mapArgNames (names : List String) (x : String) (hx : x ∈ names) :
    assocLookup (mapArgNamesToStructFields names) x = some (resolvedField x) := by
  induction names with
  | nil => cases hx
  | cons n rest ih =>
      by_cases hn : n = x
      · subst hn
        simp [mapArgNamesToStructFields, assocLookup]
      · rcases List.mem_cons.mp hx with h | h
        · exact absurd h.symm hn
        · simpa [mapArgNamesToStructFields, assocLookup, hn] using ih h

theorem structSetLoop_frame (abi2struct : List (String × String)) :
    ∀ (argsL : List Argument) (mvsL : List Value) (fields fields' : List (String × GoValue)),
      structSetLoop abi2struct argsL mvsL fields = some fields' →
      ∀ fn, (∀ arg ∈ argsL, (assocLookup abi2struct arg.Name).getD "" ≠ fn) →
        assocLookup fields' fn = assocLookup fields fn := by
  intro argsL
  induction argsL with
  | nil =>
      intro mvsL fields fields' h fn _
      simp [structSetLoop] at h
      subst h
      rfl
  | cons arg args ih =>
      intro mvsL fields fields' h fn hfn
      cases mvsL with
      | nil => simp [structSetLoop] at h
      | cons mv mvs =>
          simp only [structSetLoop] at h
          cases hlk : assocLookup fields ((assocLookup abi2struct arg.Name).getD "") with
          | none => rw [hlk] at h; simp at h
          | some fv =>
              rw [hlk] at h
              have h2 : structSetLoop abi2struct args mvs
                  (updateField fields ((assocLookup abi2struct arg.Name).getD "")
                    (GoValue.prim mv)) = some fields' := h
              have hframe := ih mvs _ fields' h2 fn
                (fun a ha => hfn a (List.mem_cons_of_mem _ ha))
              rw [hframe]
              exact assocLookup_updateField fields _ fn _ (hfn arg (List.mem_cons_self _ _))

/-- Claim C10: when unpackTuple succeeds on a named-field (struct)
destination, the only fields it writes are those resolved from a non-indexed
argument's name by the field-resolution collaborator; every field whose name
is not the resolution of any non-indexed argument's name keeps its prior
value. -/
theorem C10_tuple_frame (arguments : Arguments) (fields fields' : List (String × GoValue))
    (mvs : List Value)
    (h : Arguments.unpackTuple arguments (GoValue.strct fields) mvs =
      some (GoValue.strct fields')) :
    ∀ fn : String, (∀ arg ∈ Arguments.NonIndexed arguments, resolvedField arg.Name ≠ fn) →
      assocLookup fields' fn = assocLookup fields fn := by
  intro fn hfn
  simp only [Arguments.unpackTuple] at h
  cases hs : structSetLoop
      (mapArgNamesToStructFields (( Arguments.NonIndexed arguments).map (fun arg => arg.Name)))
      ( Arguments.NonIndexed arguments) mvs fields with
  | none => rw [hs] at h; simp at h
  | some out =>
      rw [hs] at h
      simp only [Option.map_some', Option.some.injEq, GoValue.strct.injEq] at h
      subst h
      refine structSetLoop_frame _ _ _ _ _ hs fn ?_
      intro arg ha
      rw [assocLookup_mapArgNames _ _ (List.mem_map_of_mem _ ha)]
      simpa using hfn arg ha

theorem C10_tuple_frame_witness :
    ( Arguments.unpackTuple [⟨"a", AbiType.uint256, false⟩]
        (GoValue.strct [("A", GoValue.prim (Value.uint 0)), ("B", GoValue.prim (Value.uint 5))])
        [Value.uint 9] =
      some (GoValue.strct
        [("A", GoValue.prim (Value.uint 9)), ("B", GoValue.prim (Value.uint 5))])) ∧
    assocLookup [("A", GoValue.prim (Value.uint 9)), ("B", GoValue.prim (Value.uint 5))] "B" =
      assocLookup [("A", GoValue.prim (Value.uint 0)), ("B", GoValue.prim (Value.uint 5))] "B" :=
  ⟨by decide,
    C10_tuple_frame [⟨"a", AbiType.uint256, false⟩]
      [("A", GoValue.prim (Value.uint 0)), ("B", GoValue.prim (Value.uint 5))]
      [("A", GoValue.prim (Value.uint 9)), ("B", GoValue.prim (Value.uint 5))]
      [Value.uint 9] (by decide) "B" (by decide)⟩

theorem collectAddrs_extractAll :
    ∀ l : List (Argument × Value), collectAddrs l = (extractAll l).map List.flatten := by
  intro l
  induction l with
  | nil => simp [collectAddrs, extractAll]
  | cons p rest ih =>
      obtain ⟨input, a⟩ := p
      cases hg : AbiType.getAllAddress input.Ty a with
      | none => simp [collectAddrs, extractAll, hg]
      | some pkrs =>
          cases he : extractAll rest with
          | none => simp [collectAddrs, extractAll, hg, he, ih]
          | some ls => simp [collectAddrs, extractAll, hg, he, ih]

/-- Claim C5: PackPrefix fails with no output when the value count differs
from the argument count or when any per-argument address extraction fails
(the extraction of the whole zip fails); on success it returns the per-argument
address record lists concatenated across arguments in list order, prefixed by
the total record count encoded as a fixed 2-byte big-endian value. -/
theorem C5_address_list_encoding (arguments : Arguments) (args : List Value) :
    (args.length ≠ arguments.length → Arguments.PackPrefix arguments args = none) ∧
    (args.length = arguments.length →
      Arguments.PackPrefix arguments args =
        (extractAll (arguments.zip args)).map
          (fun ls => beBytes 2 ls.flatten.length ++ ls.flatten.flatten)) ∧
    (∀ n, (beBytes 2 n).length = 2) := by
  refine ⟨?_, ?_, fun n => beBytes_length 2 n⟩
  · intro h
    simp [ Arguments.PackPrefix, h]
  · intro h
    have hne : ¬args.length ≠ arguments.length := by omega
    simp only [ Arguments.PackPrefix, if_neg hne]
    rw [collectAddrs_extractAll]
    cases extractAll (arguments.zip args) with
    | none => simp
    | some ls => simp

theorem C5_address_list_encoding_witness :
    (([Value.addr [1, 2], Value.uint 5] : List Value).length =
        ([⟨"p", AbiType.addressTy, false⟩, ⟨"n", AbiType.uint256, false⟩] : Arguments).length) ∧
      Arguments.PackPrefix [⟨"p", AbiType.addressTy, false⟩, ⟨"n", AbiType.uint256, false⟩]
          [Value.addr [1, 2], Value.uint 5] =
        (extractAll
            ([⟨"p", AbiType.addressTy, false⟩, ⟨"n", AbiType.uint256, false⟩].zip
              ([Value.addr [1, 2], Value.uint 5] : List Value))).map
          (fun ls => beBytes 2 ls.flatten.length ++ ls.flatten.flatten) :=
  ⟨by decide,
    (C5_address_list_encoding [⟨"p", AbiType.addressTy, false⟩, ⟨"n", AbiType.uint256, false⟩]
      [Value.addr [1, 2], Value.uint 5]).2.1 (by decide)⟩

theorem packLoop_spec (inputOffset : Nat) :
    ∀ (pairs : List (Argument × Value)) (ret variableInput : List Nat),
      packLoop inputOffset pairs ret variableInput =
        (specHead inputOffset variableInput.length pairs).bind
          (fun hd => (specTail pairs).map (fun tl => (ret ++ hd) ++ (variableInput ++ tl))) := by
  intro pairs
  induction pairs with
  | nil => intro ret vi; simp [packLoop, specHead, specTail]
  | cons p rest ih =>
      intro ret vi
      obtain ⟨input, a⟩ := p
      cases hp : AbiType.pack input.Ty a with
      | none => simp [packLoop, specHead, specTail, hp]
      | some packed =>
          cases hq : requiresLengthPrefix input.Ty with
          | true =>
              simp only [packLoop, specHead, specTail, hp, hq, if_true]
              rw [ih]
              have hl : (vi ++ packed).length = vi.length + packed.length := by simp
              rw [hl]
              cases specHead inputOffset (vi.length + packed.length) rest with
              | none => simp
              | some hd =>
                  cases specTail rest with
                  | none => simp
                  | some tl => simp [List.append_assoc]
          | false =>
              simp only [packLoop, specHead, specTail, hp, hq, Bool.false_eq_true,
                if_false]
              rw [ih]
              cases specHead inputOffset vi.length rest with
              | none => simp
              | some hd =>
                  cases specTail rest with
                  | none => simp
                  | some tl => simp [List.append_assoc]

theorem foldl_headSize :
    ∀ (argsL : Arguments) (acc : Nat),
      argsL.foldl (fun acc abiArg =>
        if AbiType.T abiArg.Ty = TKind.ArrayTy then acc + 32 * AbiType.Size abiArg.Ty
        else acc + 32) acc = acc + headSize argsL := by
  intro argsL
  induction argsL with
  | nil => intro acc; simp [headSize]
  | cons a rest ih =>
      intro acc
      by_cases hT : AbiType.T a.Ty = TKind.ArrayTy <;>
        simp [headSize, hT, ih, List.foldl_cons] <;> omega

/-- Claim C2: Pack computes the head size as 32 bytes per argument except an
array-typed argument contributes 32 times its own declared dimension size;
each length-prefixed argument contributes a 32-byte offset headSize plus the
current tail length to the head and its packed payload to the tail, every
other argument's packed bytes go inline in the head, and the result is
exactly head followed by tail. -/
theorem C2_pack_layout (arguments : Arguments) (args : List Value)
    (h : args.length = arguments.length) :
    Arguments.Pack arguments args =
      (specHead (headSize arguments) 0 (arguments.zip args)).bind
        (fun hd => (specTail (arguments.zip args)).map (fun tl => hd ++ tl)) ∧
    (∀ n, (packNum n).length = 32) := by
  constructor
  · have hne : ¬args.length ≠ arguments.length := by omega
    simp only [Arguments.Pack, if_neg hne]
    rw [foldl_headSize]
    rw [packLoop_spec]
    simp
  · intro n
    simpa [packNum] using beBytes_length 32 n

theorem C2_pack_layout_witness :
    (([Value.bytesV [1], Value.uint 5] : List Value).length =
        ([⟨"s", AbiType.bytesTy, false⟩, ⟨"x", AbiType.uint256, false⟩] : Arguments).length) ∧
      Arguments.Pack [⟨"s", AbiType.bytesTy, false⟩, ⟨"x", AbiType.uint256, false⟩]
          [Value.bytesV [1], Value.uint 5] =
        (specHead (headSize [⟨"s", AbiType.bytesTy, false⟩, ⟨"x", AbiType.uint256, false⟩]) 0
            ([⟨"s", AbiType.bytesTy, false⟩, ⟨"x", AbiType.uint256, false⟩].zip
              ([Value.bytesV [1], Value.uint 5] : List Value))).bind
          (fun hd =>
            (specTail
                ([⟨"s", AbiType.bytesTy, false⟩, ⟨"x", AbiType.uint256, false⟩].zip
                  ([Value.bytesV [1], Value.uint 5] : List Value))).map
              (fun tl => hd ++ tl)) :=
  ⟨by decide,
    (C2_pack_layout [⟨"s", AbiType.bytesTy, false⟩, ⟨"x", AbiType.uint256, false⟩]
      [Value.bytesV [1], Value.uint 5] (by decide)).1⟩

/-- Claim C1 (the round-trip law UnpackValues(Pack(values)) == values) is
violated by the code: for the all-non-indexed argument list
[a : uint256[2][2] (a nested static array), b : bytes] and acceptable values
([[0,0],[0,0]], bytes [7]), Pack computes the head size contribution of the
nested array as 32 * 2 = 64 (its top-level declared dimension only) while the
array actually occupies 2 * 2 * 32 = 128 inline head bytes, so the offset
written for the dynamic argument (96) points inside the array region instead
of at its payload (at byte 160), and decoding returns the empty byte string:
the round trip loses the payload. -/
theorem C1_roundtrip_violation :
    ( Arguments.Pack
          [⟨"a", AbiType.array 2 (AbiType.array 2 AbiType.uint256), false⟩,
           ⟨"b", AbiType.bytesTy, false⟩]
          [Value.arr [Value.arr [Value.uint 0, Value.uint 0],
                      Value.arr [Value.uint 0, Value.uint 0]],
           Value.bytesV [7]]).bind
        (fun bs => Arguments.UnpackValues
          [⟨"a", AbiType.array 2 (AbiType.array 2 AbiType.uint256), false⟩,
           ⟨"b", AbiType.bytesTy, false⟩] bs) =
      some [Value.arr [Value.arr [Value.uint 0, Value.uint 0],
                       Value.arr [Value.uint 0, Value.uint 0]],
            Value.bytesV []] ∧
    ( Arguments.Pack
          [⟨"a", AbiType.array 2 (AbiType.array 2 AbiType.uint256), false⟩,
           ⟨"b", AbiType.bytesTy, false⟩]
          [Value.arr [Value.arr [Value.uint 0, Value.uint 0],
                      Value.arr [Value.uint 0, Value.uint 0]],
           Value.bytesV [7]]).bind
        (fun bs => Arguments.UnpackValues
          [⟨"a", AbiType.array 2 (AbiType.array 2 AbiType.uint256), false⟩,
           ⟨"b", AbiType.bytesTy, false⟩] bs) ≠
      some [Value.arr [Value.arr [Value.uint 0, Value.uint 0],
                       Value.arr [Value.uint 0, Value.uint 0]],
            Value.bytesV [7]] := by
  constructor
  · set_option maxRecDepth 100000 in decide
  · set_option maxRecDepth 100000 in decide
